import Mathlib

/-!
Shallow embedding of the tracer-rs intersection and shading kernel
(src/hitable.rs and src/material.rs), with the external vector and ray
primitives modelled from the specification they are assumed to satisfy.
Floating-point numbers are modelled as real numbers.
-/

namespace Tracer

noncomputable section

/-- Modelled from the spec: the 3D vector type of the external vector module
(not among the two core source files), supporting add, subtract, scalar
multiply, divide by scalar, dot, normalize and reflect. -/
structure Vector where
  x : ℝ
  y : ℝ
  z : ℝ

instance : Add Vector := ⟨fun u v => ⟨u.x + v.x, u.y + v.y, u.z + v.z⟩⟩

instance : Sub Vector := ⟨fun u v => ⟨u.x - v.x, u.y - v.y, u.z - v.z⟩⟩

instance : SMul ℝ Vector := ⟨fun t v => ⟨t * v.x, t * v.y, t * v.z⟩⟩

instance : HDiv Vector ℝ Vector := ⟨fun v t => ⟨v.x / t, v.y / t, v.z / t⟩⟩

/-- Modelled from the spec: dot product of the external vector module. -/
def Vector.dot (u v : Vector) : ℝ := u.x * v.x + u.y * v.y + u.z * v.z

/-- Modelled from the spec: euclidean length of a vector. -/
def Vector.length (v : Vector) : ℝ := Real.sqrt (v.dot v)

/-- Modelled from the spec: normalize scales a vector to unit length. -/
def Vector.normalize (v : Vector) : Vector := v / v.length

/-- Modelled from the spec: reflect(v, n) = v - 2*dot(v,n)*n. -/
def Vector.reflect (v n : Vector) : Vector := v - (2 * v.dot n) • n

/-- Modelled from the spec: the all-zero vector (Vector::origin). -/
def Vector.zero : Vector := ⟨0, 0, 0⟩

/-- Modelled from the spec: the all-one vector (Vector::one). -/
def Vector.one : Vector := ⟨1, 1, 1⟩

/-- Modelled from the spec: a ray is an origin plus a direction. -/
structure Ray where
  origin : Vector
  direction : Vector

/-- Modelled from the spec: point_at(t) = origin + t*direction. -/
def Ray.point_at (r : Ray) (t : ℝ) : Vector := r.origin + t • r.direction

/-- Lambertian material (material.rs): a diffuse albedo. -/
structure Lambertian where
  albedo : Vector

/-- Metallic material (material.rs): a specular albedo. -/
structure Metallic where
  albedo : Vector

/-- The closed set of Material implementations in the repository, standing for
the shared Material trait-object handle stored in a hit record. -/
inductive Material
  | lambertian (m : Lambertian)
  | metallic (m : Metallic)

/-- Intersection (hitable.rs): Miss, or a hit record with parameter t,
position, normal and material. -/
inductive Intersection
  | Miss
  | Hit (t : ℝ) (position : Vector) (normal : Vector) (material : Material)

/-- The ray parameter of a hit record, if any. -/
def Intersection.tOpt : Intersection → Option ℝ
  | Intersection.Miss => none
  | Intersection.Hit t _ _ _ => some t

/-- Sphere (hitable.rs): center, radius and material. -/
structure Sphere where
  center : Vector
  radius : ℝ
  material : Material

/-- Sphere::hit (hitable.rs lines 31-74): solve the quadratic, test the
smaller root first, then the larger; each root is accepted only strictly
inside (t_min, t_max). -/
def Sphere.hit (s : Sphere) (r : Ray) (t_min t_max : ℝ) : Intersection :=
  let oc := r.origin - s.center
  let a := r.direction.dot r.direction
  let b := oc.dot r.direction
  let c := oc.dot oc - s.radius * s.radius
  let discriminant := b * b - a * c
  if discriminant > 0 then
    let temp := (-b - Real.sqrt discriminant) / a
    if temp < t_max ∧ temp > t_min then
      Intersection.Hit temp (r.point_at temp) ((r.point_at temp - s.center) / s.radius) s.material
    else
      let temp2 := (-b + Real.sqrt discriminant) / a
      if temp2 < t_max ∧ temp2 > t_min then
        Intersection.Hit temp2 (r.point_at temp2) ((r.point_at temp2 - s.center) / s.radius)
          s.material
      else Intersection.Miss
  else Intersection.Miss

/-- Default for Sphere (hitable.rs lines 77-85). -/
def Sphere.defaultSphere : Sphere :=
  ⟨Vector.zero, 1, Material.lambertian ⟨Vector.one⟩⟩

/-- A hitable as the source stores it: a trait object, semantically a function
from a ray and a parameter interval to an intersection. -/
def Hitable : Type := Ray → ℝ → ℝ → Intersection

/-- The Hitable instance a sphere provides. -/
def Sphere.toHitable (s : Sphere) : Hitable := fun r t_min t_max => s.hit r t_min t_max

/-- HitableList (hitable.rs): an ordered collection of hitables. -/
structure HitableList where
  items : List Hitable

/-- The loop body of HitableList::hit (hitable.rs lines 98-118): each member is
queried with the original t_max; a hit is kept only when its t is strictly
below closest_so_far. -/
def hitAux (r : Ray) (t_min t_max : ℝ) : List Hitable → Intersection → ℝ → Intersection
  | [], intersect, _ => intersect
  | i :: rest, intersect, closest_so_far =>
    match i r t_min t_max with
    | Intersection.Hit t position normal material =>
      if t < closest_so_far then
        hitAux r t_min t_max rest (Intersection.Hit t position normal material) t
      else
        hitAux r t_min t_max rest intersect closest_so_far
    | Intersection.Miss => hitAux r t_min t_max rest intersect closest_so_far

/-- HitableList::hit (hitable.rs lines 97-119). -/
def HitableList.hit (l : HitableList) (r : Ray) (t_min t_max : ℝ) : Intersection :=
  hitAux r t_min t_max l.items Intersection.Miss t_max

/-- Lambertian::scatter (material.rs lines 21-44). The out-parameter
attenuation is modelled by returning its final value as the first component;
the ambient random point in the unit sphere is passed in as rnd. -/
def Lambertian.scatter (l : Lambertian) (incident : Ray) (intersection : Intersection)
    (attenuation : Vector) (rnd : Vector) : Vector × Option Ray :=
  match intersection with
  | Intersection.Hit _ position normal _ =>
    let target := position + normal + rnd
    let scattered : Ray := ⟨position, target - position⟩
    (l.albedo, some scattered)
  | Intersection.Miss => (attenuation, none)

/-- Metallic::scatter (material.rs lines 50-76). The out-parameter attenuation
is modelled by returning its final value as the first component. -/
def Metallic.scatter (mtl : Metallic) (incident : Ray) (intersection : Intersection)
    (attenuation : Vector) : Vector × Option Ray :=
  match intersection with
  | Intersection.Hit _ position normal _ =>
    let reflected := (incident.direction.normalize).reflect normal
    let scattered : Ray := ⟨position, reflected⟩
    (mtl.albedo, if scattered.direction.dot normal > 0 then some scattered else none)
  | Intersection.Miss => (attenuation, none)

/-- The quantity oc = origin - center of Sphere::hit. -/
def Sphere.oc (s : Sphere) (r : Ray) : Vector := r.origin - s.center

/-- The quadratic coefficient a = dot(direction, direction) of Sphere::hit. -/
def Sphere.qa (s : Sphere) (r : Ray) : ℝ := r.direction.dot r.direction

/-- The half-b coefficient b = dot(oc, direction) of Sphere::hit. -/
def Sphere.qb (s : Sphere) (r : Ray) : ℝ := (s.oc r).dot r.direction

/-- The constant coefficient c = dot(oc, oc) - r*r of Sphere::hit. -/
def Sphere.qc (s : Sphere) (r : Ray) : ℝ := (s.oc r).dot (s.oc r) - s.radius * s.radius

/-- The discriminant b*b - a*c of Sphere::hit. -/
def Sphere.discriminant (s : Sphere) (r : Ray) : ℝ :=
  s.qb r * s.qb r - s.qa r * s.qc r

/-- The smaller candidate root (-b - sqrt(discriminant)) / a of Sphere::hit. -/
def Sphere.root1 (s : Sphere) (r : Ray) : ℝ :=
  (-s.qb r - Real.sqrt (s.discriminant r)) / s.qa r

/-- The larger candidate root (-b + sqrt(discriminant)) / a of Sphere::hit. -/
def Sphere.root2 (s : Sphere) (r : Ray) : ℝ :=
  (-s.qb r + Real.sqrt (s.discriminant r)) / s.qa r

/-- The hit record Sphere::hit builds from an accepted root t. -/
def Sphere.hitRecord (s : Sphere) (r : Ray) (t : ℝ) : Intersection :=
  Intersection.Hit t (r.point_at t) ((r.point_at t - s.center) / s.radius) s.material

/-- Modelled from the spec: the Scene algorithm as the spec words it, each
member queried with the shrunken upper bound closest_so_far instead of the
original t_max. -/
def specHitAux (r : Ray) (t_min : ℝ) : List Hitable → Intersection → ℝ → Intersection
  | [], res, _ => res
  | i :: rest, res, closest_so_far =>
    match i r t_min closest_so_far with
    | Intersection.Hit t position normal material =>
      if t < closest_so_far then
        specHitAux r t_min rest (Intersection.Hit t position normal material) t
      else
        specHitAux r t_min rest res closest_so_far
    | Intersection.Miss => specHitAux r t_min rest res closest_so_far

/-- Modelled from the spec: the Scene algorithm with the shrinking upper
bound, started from result = Miss and closest_so_far = t_max. -/
def HitableList.specHit (l : HitableList) (r : Ray) (t_min t_max : ℝ) : Intersection :=
  specHitAux r t_min l.items Intersection.Miss t_max

/-- The amended step-by-step description of HitableList::hit: a left fold
carrying the pair (result, closest_so_far), initialized to (Miss, t_max),
querying every member with the original t_max and updating the pair whenever
the member reports a hit with t strictly below closest_so_far. -/
def HitableList.stepHit (l : HitableList) (r : Ray) (t_min t_max : ℝ) : Intersection :=
  (l.items.foldl
    (fun st i =>
      match i r t_min t_max with
      | Intersection.Hit t position normal material =>
        if t < st.2 then (Intersection.Hit t position normal material, t) else st
      | Intersection.Miss => st)
    (Intersection.Miss, t_max)).1

/-- The generic selection loop of HitableList::hit, expressed on the list of
the members' intersection results. -/
def selectHit : List Intersection → Intersection → ℝ → Intersection
  | [], acc, _ => acc
  | Intersection.Hit t position normal material :: rest, acc, closest_so_far =>
    if t < closest_so_far then
      selectHit rest (Intersection.Hit t position normal material) t
    else selectHit rest acc closest_so_far
  | Intersection.Miss :: rest, acc, closest_so_far => selectHit rest acc closest_so_far

/-- A shared diffuse white material for concrete test scenes. -/
def mat0 : Material := Material.lambertian ⟨Vector.one⟩

/-- The unit sphere at the origin of the spec's test properties. -/
def sphere0 : Sphere := ⟨Vector.zero, 1, mat0⟩

/-- A second unit sphere further along the z axis, at (0,0,10). -/
def sphere1 : Sphere := ⟨⟨0, 0, 10⟩, 1, mat0⟩

/-- The test ray from (0,0,-5) along (0,0,1). -/
def ray0 : Ray := ⟨⟨0, 0, -5⟩, ⟨0, 0, 1⟩⟩

/-- A ray from (0,1,-5) along (0,0,1), exactly tangent to the unit sphere. -/
def rayT : Ray := ⟨⟨0, 1, -5⟩, ⟨0, 0, 1⟩⟩

/-- A ray from (0,0,-5) along (1,0,0), missing the unit sphere. -/
def rayM : Ray := ⟨⟨0, 0, -5⟩, ⟨1, 0, 0⟩⟩

/-- A member that always reports a hit at t = 3, whatever the interval. -/
def hitA : Hitable := fun _ _ _ => Intersection.Hit 3 Vector.zero Vector.zero mat0

/-- A member whose report depends on the upper bound it is queried with: a hit
at t = 1 when the bound exceeds 5, a miss otherwise. -/
def hitB : Hitable := fun _ _ t_max =>
  if 5 < t_max then Intersection.Hit 1 Vector.zero Vector.zero mat0 else Intersection.Miss

end

end Tracer

namespace Tracer

@[simp] theorem Vector.add_x (u v : Vector) : (u + v).x = u.x + v.x := rfl

@[simp] theorem Vector.add_y (u v : Vector) : (u + v).y = u.y + v.y := rfl

@[simp] theorem Vector.add_z (u v : Vector) : (u + v).z = u.z + v.z := rfl

@[simp] theorem Vector.sub_x (u v : Vector) : (u - v).x = u.x - v.x := rfl

@[simp] theorem Vector.sub_y (u v : Vector) : (u - v).y = u.y - v.y := rfl

@[simp] theorem Vector.sub_z (u v : Vector) : (u - v).z = u.z - v.z := rfl

@[simp] theorem Vector.smul_x (t : ℝ) (v : Vector) : (t • v).x = t * v.x := rfl

@[simp] theorem Vector.smul_y (t : ℝ) (v : Vector) : (t • v).y = t * v.y := rfl

@[simp] theorem Vector.smul_z (t : ℝ) (v : Vector) : (t • v).z = t * v.z := rfl

@[simp] theorem Vector.div_x (v : Vector) (t : ℝ) : (v / t).x = v.x / t := rfl

@[simp] theorem Vector.div_y (v : Vector) (t : ℝ) : (v / t).y = v.y / t := rfl

@[simp] theorem Vector.div_z (v : Vector) (t : ℝ) : (v / t).z = v.z / t := rfl

@[simp] theorem Vector.mk_add_mk (a b c d e f : ℝ) :
    (Vector.mk a b c) + (Vector.mk d e f) = Vector.mk (a + d) (b + e) (c + f) := rfl

@[simp] theorem Vector.mk_sub_mk (a b c d e f : ℝ) :
    (Vector.mk a b c) - (Vector.mk d e f) = Vector.mk (a - d) (b - e) (c - f) := rfl

@[simp] theorem Vector.smul_mk (t a b c : ℝ) :
    t • (Vector.mk a b c) = Vector.mk (t * a) (t * b) (t * c) := rfl

@[simp] theorem Vector.mk_div (a b c t : ℝ) :
    (Vector.mk a b c) / t = Vector.mk (a / t) (b / t) (c / t) := rfl

@[simp] theorem Vector.mk_x (a b c : ℝ) : (Vector.mk a b c).x = a := rfl

@[simp] theorem Vector.mk_y (a b c : ℝ) : (Vector.mk a b c).y = b := rfl

@[simp] theorem Vector.mk_z (a b c : ℝ) : (Vector.mk a b c).z = c := rfl

/-- Unfolding Sphere::hit into the named quadratic quantities. -/
theorem Sphere.hit_eq (s : Sphere) (r : Ray) (t_min t_max : ℝ) :
    s.hit r t_min t_max =
      if s.discriminant r > 0 then
        if s.root1 r < t_max ∧ s.root1 r > t_min then s.hitRecord r (s.root1 r)
        else if s.root2 r < t_max ∧ s.root2 r > t_min then s.hitRecord r (s.root2 r)
        else Intersection.Miss
      else Intersection.Miss := rfl

theorem discriminant_sphere0_ray0 : Sphere.discriminant sphere0 ray0 = 1 := by
  norm_num [Sphere.discriminant, Sphere.qa, Sphere.qb, Sphere.qc, Sphere.oc, Vector.dot,
    sphere0, ray0, Vector.zero]

theorem root1_sphere0_ray0 : Sphere.root1 sphere0 ray0 = 4 := by
  rw [Sphere.root1, discriminant_sphere0_ray0]
  norm_num [Sphere.qa, Sphere.qb, Sphere.oc, Vector.dot, sphere0, ray0, Vector.zero,
    Real.sqrt_one]

theorem root2_sphere0_ray0 : Sphere.root2 sphere0 ray0 = 6 := by
  rw [Sphere.root2, discriminant_sphere0_ray0]
  norm_num [Sphere.qa, Sphere.qb, Sphere.oc, Vector.dot, sphere0, ray0, Vector.zero,
    Real.sqrt_one]

/-- The first of the spec's concrete sphere queries: a hit at t = 4. -/
theorem hit_sphere0_ray0 :
    Sphere.hit sphere0 ray0 0 1000 = Intersection.Hit 4 ⟨0, 0, -1⟩ ⟨0, 0, -1⟩ mat0 := by
  rw [Sphere.hit_eq, discriminant_sphere0_ray0, root1_sphere0_ray0]
  norm_num [Sphere.hitRecord, Ray.point_at, sphere0, ray0, mat0, Vector.zero,
    Intersection.Hit.injEq, Vector.mk.injEq]

/-- The same query truncated at t_max = 3 misses both roots. -/
theorem hit_sphere0_ray0_tmax3 : Sphere.hit sphere0 ray0 0 3 = Intersection.Miss := by
  rw [Sphere.hit_eq, discriminant_sphere0_ray0, root1_sphere0_ray0, root2_sphere0_ray0]
  norm_num

/-- The same query with t_min = 5 accepts the far root t = 6. -/
theorem hit_sphere0_ray0_tmin5 :
    Sphere.hit sphere0 ray0 5 1000 = Intersection.Hit 6 ⟨0, 0, 1⟩ ⟨0, 0, 1⟩ mat0 := by
  rw [Sphere.hit_eq, discriminant_sphere0_ray0, root1_sphere0_ray0, root2_sphere0_ray0]
  norm_num [Sphere.hitRecord, Ray.point_at, sphere0, ray0, mat0, Vector.zero,
    Intersection.Hit.injEq, Vector.mk.injEq]

/-- The tangent ray yields discriminant zero. -/
theorem discriminant_sphere0_rayT : Sphere.discriminant sphere0 rayT = 0 := by
  norm_num [Sphere.discriminant, Sphere.qa, Sphere.qb, Sphere.qc, Sphere.oc, Vector.dot,
    sphere0, rayT, Vector.zero]

theorem Vector.dot_self_nonneg (v : Vector) : 0 ≤ v.dot v := by
  unfold Vector.dot
  nlinarith [sq_nonneg v.x, sq_nonneg v.y, sq_nonneg v.z]

theorem Sphere.qa_nonneg (s : Sphere) (r : Ray) : 0 ≤ s.qa r :=
  Vector.dot_self_nonneg r.direction

/-- A strictly positive discriminant forces a nondegenerate direction: with a
zero direction both qa and qb vanish and the discriminant is zero. -/
theorem Sphere.qa_pos_of_disc (s : Sphere) (r : Ray) (h : 0 < s.discriminant r) :
    0 < s.qa r := by
  rcases (Sphere.qa_nonneg s r).lt_or_eq with hlt | heq
  · exact hlt
  · exfalso
    have hx : r.direction.x = 0 := by
      have := heq.symm
      unfold Sphere.qa Vector.dot at this
      nlinarith [sq_nonneg r.direction.x, sq_nonneg r.direction.y, sq_nonneg r.direction.z]
    have hy : r.direction.y = 0 := by
      have := heq.symm
      unfold Sphere.qa Vector.dot at this
      nlinarith [sq_nonneg r.direction.x, sq_nonneg r.direction.y, sq_nonneg r.direction.z]
    have hz : r.direction.z = 0 := by
      have := heq.symm
      unfold Sphere.qa Vector.dot at this
      nlinarith [sq_nonneg r.direction.x, sq_nonneg r.direction.y, sq_nonneg r.direction.z]
    have hb : s.qb r = 0 := by
      unfold Sphere.qb Vector.dot
      rw [hx, hy, hz]
      ring
    have : s.discriminant r = 0 := by
      unfold Sphere.discriminant
      rw [hb, ← heq]
      ring
    exact absurd (this ▸ h) (lt_irrefl 0)

/-- With a positive discriminant the first root tested is the smaller one. -/
theorem Sphere.root1_le_root2 (s : Sphere) (r : Ray) (h : 0 < s.discriminant r) :
    s.root1 r ≤ s.root2 r := by
  unfold Sphere.root1 Sphere.root2
  have hqa := Sphere.qa_pos_of_disc s r h
  have hs := Real.sqrt_nonneg (s.discriminant r)
  exact (div_le_div_iff_of_pos_right hqa).mpr (by linarith)

/-- A nonpositive discriminant takes the Miss branch of Sphere::hit. -/
theorem Sphere.hit_of_disc_nonpos (s : Sphere) (r : Ray) (t_min t_max : ℝ)
    (h : s.discriminant r ≤ 0) : s.hit r t_min t_max = Intersection.Miss := by
  rw [Sphere.hit_eq, if_neg (not_lt.mpr h)]

theorem quadratic_root_minus (A B C S : ℝ) (hqa : A ≠ 0) (hS : S * S = B * B - A * C) :
    A * ((-B - S) / A * ((-B - S) / A)) + 2 * B * ((-B - S) / A) + C = 0 := by
  field_simp
  linear_combination A ^ 2 * hS

theorem quadratic_root_plus (A B C S : ℝ) (hqa : A ≠ 0) (hS : S * S = B * B - A * C) :
    A * ((-B + S) / A * ((-B + S) / A)) + 2 * B * ((-B + S) / A) + C = 0 := by
  field_simp
  linear_combination A ^ 2 * hS

/-- The smaller candidate root satisfies the ray-sphere quadratic. -/
theorem Sphere.root1_quadratic (s : Sphere) (r : Ray) (h : 0 < s.discriminant r) :
    s.qa r * (s.root1 r * s.root1 r) + 2 * s.qb r * s.root1 r + s.qc r = 0 := by
  have hqa : s.qa r ≠ 0 := ne_of_gt (Sphere.qa_pos_of_disc s r h)
  have hS : Real.sqrt (s.discriminant r) * Real.sqrt (s.discriminant r) =
      s.qb r * s.qb r - s.qa r * s.qc r := Real.mul_self_sqrt h.le
  unfold Sphere.root1
  exact quadratic_root_minus (s.qa r) (s.qb r) (s.qc r) (Real.sqrt (s.discriminant r)) hqa hS

/-- The larger candidate root satisfies the ray-sphere quadratic. -/
theorem Sphere.root2_quadratic (s : Sphere) (r : Ray) (h : 0 < s.discriminant r) :
    s.qa r * (s.root2 r * s.root2 r) + 2 * s.qb r * s.root2 r + s.qc r = 0 := by
  have hqa : s.qa r ≠ 0 := ne_of_gt (Sphere.qa_pos_of_disc s r h)
  have hS : Real.sqrt (s.discriminant r) * Real.sqrt (s.discriminant r) =
      s.qb r * s.qb r - s.qa r * s.qc r := Real.mul_self_sqrt h.le
  unfold Sphere.root2
  exact quadratic_root_plus (s.qa r) (s.qb r) (s.qc r) (Real.sqrt (s.discriminant r)) hqa hS

/-- A positive discriminant rules out a zero radius, by Cauchy-Schwarz. -/
theorem Sphere.radius_ne_zero_of_disc (s : Sphere) (r : Ray) (h : 0 < s.discriminant r) :
    s.radius ≠ 0 := by
  intro h0
  have hcs : s.qb r * s.qb r ≤ s.qa r * s.qc r := by
    unfold Sphere.qa Sphere.qb Sphere.qc Sphere.oc Vector.dot
    rw [h0]
    simp only [Vector.sub_x, Vector.sub_y, Vector.sub_z]
    nlinarith [sq_nonneg ((r.origin.x - s.center.x) * r.direction.y
        - (r.origin.y - s.center.y) * r.direction.x),
      sq_nonneg ((r.origin.x - s.center.x) * r.direction.z
        - (r.origin.z - s.center.z) * r.direction.x),
      sq_nonneg ((r.origin.y - s.center.y) * r.direction.z
        - (r.origin.z - s.center.z) * r.direction.y)]
  rw [Sphere.discriminant] at h
  linarith

/-- Inversion for Sphere::hit: a returned hit record comes from one of the
two roots, strictly inside the interval, with the record's fields built as
the source builds them. -/
theorem Sphere.hit_cases (s : Sphere) (r : Ray) (t_min t_max t : ℝ) (p n : Vector)
    (m : Material) (h : s.hit r t_min t_max = Intersection.Hit t p n m) :
    0 < s.discriminant r ∧ (t = s.root1 r ∨ t = s.root2 r) ∧ t < t_max ∧ t > t_min ∧
      p = r.point_at t ∧ n = (r.point_at t - s.center) / s.radius ∧ m = s.material := by
  rw [Sphere.hit_eq] at h
  split_ifs at h with hd h1 h2
  · rw [Sphere.hitRecord] at h
    rw [Intersection.Hit.injEq] at h
    obtain ⟨ht, hp, hn, hm⟩ := h
    subst ht
    exact ⟨hd, Or.inl rfl, h1.1, h1.2, hp.symm, hn.symm, hm.symm⟩
  · rw [Sphere.hitRecord] at h
    rw [Intersection.Hit.injEq] at h
    obtain ⟨ht, hp, hn, hm⟩ := h
    subst ht
    exact ⟨hd, Or.inr rfl, h2.1, h2.2, hp.symm, hn.symm, hm.symm⟩

/-- The point a sphere hit reports lies on the sphere surface. -/
theorem Sphere.hit_point_on_sphere (s : Sphere) (r : Ray) (t : ℝ)
    (hq : s.qa r * (t * t) + 2 * s.qb r * t + s.qc r = 0) :
    (r.point_at t - s.center).dot (r.point_at t - s.center) = s.radius * s.radius := by
  unfold Sphere.qa Sphere.qb Sphere.qc Sphere.oc Vector.dot at hq
  unfold Ray.point_at Vector.dot
  simp only [Vector.sub_x, Vector.sub_y, Vector.sub_z, Vector.add_x, Vector.add_y,
    Vector.add_z, Vector.smul_x, Vector.smul_y, Vector.smul_z] at hq ⊢
  linear_combination hq

/-- The hit-record invariant for Sphere::hit: position on the ray, unit
normal, parameter strictly inside the query interval. -/
theorem Sphere.hit_inv (s : Sphere) (r : Ray) (t_min t_max t : ℝ) (p n : Vector)
    (m : Material) (h : s.hit r t_min t_max = Intersection.Hit t p n m) :
    p = r.origin + t • r.direction ∧ n.length = 1 ∧ t_min < t ∧ t < t_max := by
  obtain ⟨hd, ht, hlt, hgt, hp, hn, _⟩ := Sphere.hit_cases s r t_min t_max t p n m h
  have hq : s.qa r * (t * t) + 2 * s.qb r * t + s.qc r = 0 := by
    rcases ht with h1 | h2
    · rw [h1]; exact Sphere.root1_quadratic s r hd
    · rw [h2]; exact Sphere.root2_quadratic s r hd
  have hr : s.radius ≠ 0 := Sphere.radius_ne_zero_of_disc s r hd
  have hpc := Sphere.hit_point_on_sphere s r t hq
  have hdot : n.dot n = 1 := by
    rw [hn]
    unfold Vector.dot at hpc ⊢
    simp only [Vector.div_x, Vector.div_y, Vector.div_z, Vector.sub_x, Vector.sub_y,
      Vector.sub_z] at hpc ⊢
    field_simp
    linear_combination hpc
  constructor
  · exact hp
  refine ⟨?_, hgt, hlt⟩
  rw [Vector.length, hdot, Real.sqrt_one]

/-- C3: with a positive discriminant b*b - a*c, Sphere::hit tests the smaller
root (-b - sqrt(discriminant))/a first, accepting it when strictly inside
(t_min, t_max) and returning the hit record built from it (position =
ray.point_at t, normal = (position - center)/radius, the sphere's material);
otherwise the larger root (-b + sqrt(discriminant))/a is tested the same way,
and Miss is returned when neither root qualifies. -/
theorem C3_sphere_hit_tests_smaller_root_first (s : Sphere) (r : Ray) (t_min t_max : ℝ)
    (h : s.discriminant r > 0) :
    s.root1 r ≤ s.root2 r ∧
    s.hit r t_min t_max =
      (if s.root1 r < t_max ∧ s.root1 r > t_min then s.hitRecord r (s.root1 r)
       else if s.root2 r < t_max ∧ s.root2 r > t_min then s.hitRecord r (s.root2 r)
       else Intersection.Miss) :=
  ⟨Sphere.root1_le_root2 s r h, by rw [Sphere.hit_eq, if_pos h]⟩

/-- Witness for C3 at the spec's concrete sphere query, where the
discriminant is 1 and the smaller root 4 is accepted. -/
theorem C3_witness :
    Sphere.discriminant sphere0 ray0 > 0 ∧
    (Sphere.root1 sphere0 ray0 ≤ Sphere.root2 sphere0 ray0 ∧
      Sphere.hit sphere0 ray0 0 1000 =
        (if Sphere.root1 sphere0 ray0 < 1000 ∧ Sphere.root1 sphere0 ray0 > 0 then
           Sphere.hitRecord sphere0 ray0 (Sphere.root1 sphere0 ray0)
         else if Sphere.root2 sphere0 ray0 < 1000 ∧ Sphere.root2 sphere0 ray0 > 0 then
           Sphere.hitRecord sphere0 ray0 (Sphere.root2 sphere0 ray0)
         else Intersection.Miss)) := by
  have h : Sphere.discriminant sphere0 ray0 > 0 := by
    rw [discriminant_sphere0_ray0]; norm_num
  exact ⟨h, C3_sphere_hit_tests_smaller_root_first sphere0 ray0 0 1000 h⟩

/-- C4: whenever the discriminant b*b - a*c is nonpositive, Sphere::hit
returns Miss; the tangent case discriminant = 0 is included. -/
theorem C4_nonpositive_discriminant_misses (s : Sphere) (r : Ray) (t_min t_max : ℝ)
    (h : s.discriminant r ≤ 0) : s.hit r t_min t_max = Intersection.Miss :=
  Sphere.hit_of_disc_nonpos s r t_min t_max h

/-- Witness for C4 at a ray exactly tangent to the unit sphere, whose
discriminant is 0. -/
theorem C4_witness :
    Sphere.discriminant sphere0 rayT ≤ 0 ∧
    Sphere.hit sphere0 rayT 0 1000 = Intersection.Miss := by
  have h : Sphere.discriminant sphere0 rayT ≤ 0 := le_of_eq discriminant_sphere0_rayT
  exact ⟨h, C4_nonpositive_discriminant_misses sphere0 rayT 0 1000 h⟩

/-- C6: on any hit record, Lambertian::scatter returns the albedo as
attenuation and Some scattered ray with origin the hit position and direction
(position + normal + random point) - position; it never returns None on a
hit. -/
theorem C6_lambertian_always_scatters (l : Lambertian) (incident : Ray) (t : ℝ)
    (p n : Vector) (m : Material) (attenuation rnd : Vector) :
    Lambertian.scatter l incident (Intersection.Hit t p n m) attenuation rnd =
      (l.albedo, some ⟨p, (p + n + rnd) - p⟩) := rfl

/-- C7: on any hit record, Metallic::scatter reflects the normalized incident
direction about the normal, always writes the albedo as attenuation, and
returns Some ray from the hit position along the reflection exactly when
dot(reflected, normal) > 0, None otherwise. -/
theorem C7_metallic_scatter_reflection_policy (mtl : Metallic) (incident : Ray) (t : ℝ)
    (p n : Vector) (m : Material) (attenuation : Vector) :
    Metallic.scatter mtl incident (Intersection.Hit t p n m) attenuation =
      (mtl.albedo,
        if (incident.direction.normalize.reflect n).dot n > 0 then
          some ⟨p, incident.direction.normalize.reflect n⟩
        else none) := rfl

/-- C8: called with a Miss intersection, both Lambertian::scatter and
Metallic::scatter return None and leave the attenuation unchanged. -/
theorem C8_scatter_on_miss (l : Lambertian) (mtl : Metallic) (incident : Ray)
    (attenuation rnd : Vector) :
    Lambertian.scatter l incident Intersection.Miss attenuation rnd = (attenuation, none) ∧
    Metallic.scatter mtl incident Intersection.Miss attenuation = (attenuation, none) :=
  ⟨rfl, rfl⟩

/-- C9 counterexample: the claim says the query with t_min = 5 returns Miss,
but the far root t = 6 lies strictly inside (5, 1000), so Sphere::hit returns
a hit there. -/
theorem C9_counterexample : Sphere.hit sphere0 ray0 5 1000 ≠ Intersection.Miss := by
  rw [hit_sphere0_ray0_tmin5]
  exact fun h => Intersection.noConfusion h

/-- C9 as amended: for the unit sphere at the origin and the ray from
(0,0,-5) along (0,0,1), the query with t_min = 0, t_max = 1000 returns the
hit t = 4, position (0,0,-1), normal (0,0,-1); with t_max = 3 it returns
Miss; with t_min = 5 it returns the far-side hit t = 6, position (0,0,1),
normal (0,0,1) rather than Miss. -/
theorem C9_concrete_sphere_queries :
    Sphere.hit sphere0 ray0 0 1000 = Intersection.Hit 4 ⟨0, 0, -1⟩ ⟨0, 0, -1⟩ mat0 ∧
    Sphere.hit sphere0 ray0 0 3 = Intersection.Miss ∧
    Sphere.hit sphere0 ray0 5 1000 = Intersection.Hit 6 ⟨0, 0, 1⟩ ⟨0, 0, 1⟩ mat0 :=
  ⟨hit_sphere0_ray0, hit_sphere0_ray0_tmax3, hit_sphere0_ray0_tmin5⟩

/-- C10: on a HitableList with no items, hit returns Miss for every ray and
interval. -/
theorem C10_empty_scene_misses (r : Ray) (t_min t_max : ℝ) :
    HitableList.hit ⟨[]⟩ r t_min t_max = Intersection.Miss := rfl

theorem selectHit_nil (acc : Intersection) (closest : ℝ) : selectHit [] acc closest = acc := rfl

theorem selectHit_cons_miss (rest : List Intersection) (acc : Intersection) (closest : ℝ) :
    selectHit (Intersection.Miss :: rest) acc closest = selectHit rest acc closest := rfl

theorem selectHit_cons_hit (t : ℝ) (p n : Vector) (m : Material) (rest : List Intersection)
    (acc : Intersection) (closest : ℝ) :
    selectHit (Intersection.Hit t p n m :: rest) acc closest =
      if t < closest then selectHit rest (Intersection.Hit t p n m) t
      else selectHit rest acc closest := rfl

/-- When every member result is a miss, the selection loop keeps its
accumulator. -/
theorem selectHit_all_miss (hs : List Intersection) :
    ∀ (acc : Intersection) (closest : ℝ), (∀ x ∈ hs, x = Intersection.Miss) →
      selectHit hs acc closest = acc := by
  induction hs with
  | nil => intro acc closest _; rfl
  | cons hd rest ih =>
    intro acc closest hall
    have hhd : hd = Intersection.Miss := hall hd (List.mem_cons_self hd rest)
    subst hhd
    rw [selectHit_cons_miss]
    exact ih acc closest fun x hx => hall x (List.mem_cons_of_mem _ hx)

/-- Characterization of the selection loop: it either keeps its accumulator,
with every listed hit at or beyond the current bound, or returns a listed hit
strictly below the bound that is strictly closer than every hit before it and
at least as close as every hit after it. -/
theorem selectHit_char (hs : List Intersection) :
    ∀ (acc : Intersection) (closest : ℝ),
      (selectHit hs acc closest = acc ∧
        ∀ t2 p2 n2 m2, Intersection.Hit t2 p2 n2 m2 ∈ hs → closest ≤ t2)
      ∨ ∃ t p n m pre post,
          selectHit hs acc closest = Intersection.Hit t p n m ∧ t < closest ∧
          hs = pre ++ Intersection.Hit t p n m :: post ∧
          (∀ t2 p2 n2 m2, Intersection.Hit t2 p2 n2 m2 ∈ pre → t < t2) ∧
          (∀ t2 p2 n2 m2, Intersection.Hit t2 p2 n2 m2 ∈ post → t ≤ t2) := by
  induction hs with
  | nil =>
    intro acc closest
    left
    exact ⟨rfl, by simp⟩
  | cons hd rest ih =>
    intro acc closest
    cases hd with
    | Miss =>
      rw [selectHit_cons_miss]
      rcases ih acc closest with ⟨heq, hall⟩ |
        ⟨t, p, n, m, pre, post, heq, hlt, hsplit, hpre, hpost⟩
      · left
        refine ⟨heq, fun t2 p2 n2 m2 hmem => ?_⟩
        rcases List.mem_cons.mp hmem with hc | hm
        · exact absurd hc (by simp)
        · exact hall t2 p2 n2 m2 hm
      · right
        refine ⟨t, p, n, m, Intersection.Miss :: pre, post, heq, hlt, by rw [hsplit]; rfl,
          fun t2 p2 n2 m2 hmem => ?_, hpost⟩
        rcases List.mem_cons.mp hmem with hc | hm
        · exact absurd hc (by simp)
        · exact hpre t2 p2 n2 m2 hm
    | Hit u pu nu mu =>
      rw [selectHit_cons_hit]
      by_cases hu : u < closest
      · rw [if_pos hu]
        rcases ih (Intersection.Hit u pu nu mu) u with ⟨heq, hall⟩ |
          ⟨t, p, n, m, pre, post, heq, hlt, hsplit, hpre, hpost⟩
        · right
          exact ⟨u, pu, nu, mu, [], rest, heq, hu, rfl,
            fun t2 p2 n2 m2 hm => absurd hm (List.not_mem_nil _),
            fun t2 p2 n2 m2 hm => hall t2 p2 n2 m2 hm⟩
        · right
          refine ⟨t, p, n, m, Intersection.Hit u pu nu mu :: pre, post, heq,
            lt_trans hlt hu, by rw [hsplit]; rfl, fun t2 p2 n2 m2 hmem => ?_, hpost⟩
          rcases List.mem_cons.mp hmem with hc | hm
          · rw [Intersection.Hit.injEq] at hc
            rw [hc.1]
            exact hlt
          · exact hpre t2 p2 n2 m2 hm
      · rw [if_neg hu]
        rcases ih acc closest with ⟨heq, hall⟩ |
          ⟨t, p, n, m, pre, post, heq, hlt, hsplit, hpre, hpost⟩
        · left
          refine ⟨heq, fun t2 p2 n2 m2 hmem => ?_⟩
          rcases List.mem_cons.mp hmem with hc | hm
          · rw [Intersection.Hit.injEq] at hc
            rw [hc.1]
            exact not_lt.mp hu
          · exact hall t2 p2 n2 m2 hm
        · right
          refine ⟨t, p, n, m, Intersection.Hit u pu nu mu :: pre, post, heq, hlt,
            by rw [hsplit]; rfl, fun t2 p2 n2 m2 hmem => ?_, hpost⟩
          rcases List.mem_cons.mp hmem with hc | hm
          · rw [Intersection.Hit.injEq] at hc
            rw [hc.1]
            exact lt_of_lt_of_le hlt (not_lt.mp hu)
          · exact hpre t2 p2 n2 m2 hm

/-- The loop of HitableList::hit depends on its members only through their
intersection results at the original interval. -/
theorem hitAux_eq_selectHit (r : Ray) (t_min t_max : ℝ) :
    ∀ (items : List Hitable) (acc : Intersection) (closest : ℝ),
      hitAux r t_min t_max items acc closest =
        selectHit (items.map fun i => i r t_min t_max) acc closest := by
  intro items
  induction items with
  | nil => intro acc closest; rfl
  | cons i rest ih =>
    intro acc closest
    cases hv : i r t_min t_max with
    | Miss =>
      simp only [hitAux, hv, List.map_cons, selectHit_cons_miss]
      exact ih acc closest
    | Hit t p n m =>
      simp only [hitAux, hv, List.map_cons, selectHit_cons_hit]
      by_cases hlt : t < closest
      · rw [if_pos hlt, if_pos hlt]
        exact ih _ _
      · rw [if_neg hlt, if_neg hlt]
        exact ih _ _

/-- A sphere hit's parameter lies strictly inside the query interval. -/
theorem Sphere.hit_t_bounds (s : Sphere) (r : Ray) (t_min t_max t : ℝ) (p n : Vector)
    (m : Material) (h : s.hit r t_min t_max = Intersection.Hit t p n m) :
    t_min < t ∧ t < t_max := by
  obtain ⟨_, _, hlt, hgt, _, _, _⟩ := Sphere.hit_cases s r t_min t_max t p n m h
  exact ⟨hgt, hlt⟩

/-- HitableList::hit over a scene of spheres, expressed through the selection
loop on the members' results. -/
theorem sphereScene_hit_eq_selectHit (l : List Sphere) (r : Ray) (t_min t_max : ℝ) :
    HitableList.hit ⟨l.map Sphere.toHitable⟩ r t_min t_max =
      selectHit (l.map fun s => Sphere.hit s r t_min t_max) Intersection.Miss t_max := by
  have h := hitAux_eq_selectHit r t_min t_max (l.map Sphere.toHitable)
    Intersection.Miss t_max
  rw [List.map_map] at h
  exact h

/-- Characterization of HitableList::hit on sphere scenes: either every
member misses and the scene misses, or the scene returns a member hit
strictly below t_max, strictly closer than every member hit before it and at
least as close as every member hit after it. -/
theorem sphereScene_hit_char (l : List Sphere) (r : Ray) (t_min t_max : ℝ) :
    (HitableList.hit ⟨l.map Sphere.toHitable⟩ r t_min t_max = Intersection.Miss ∧
      ∀ s ∈ l, Sphere.hit s r t_min t_max = Intersection.Miss)
    ∨ ∃ t p n m pre post,
        HitableList.hit ⟨l.map Sphere.toHitable⟩ r t_min t_max = Intersection.Hit t p n m ∧
        t < t_max ∧
        l.map (fun s => Sphere.hit s r t_min t_max) =
          pre ++ Intersection.Hit t p n m :: post ∧
        (∀ t2 p2 n2 m2, Intersection.Hit t2 p2 n2 m2 ∈ pre → t < t2) ∧
        (∀ t2 p2 n2 m2, Intersection.Hit t2 p2 n2 m2 ∈ post → t ≤ t2) := by
  rcases selectHit_char (l.map fun s => Sphere.hit s r t_min t_max) Intersection.Miss t_max
    with ⟨heq, hall⟩ | ⟨t, p, n, m, pre, post, heq, hlt, hsplit, hpre, hpost⟩
  · left
    refine ⟨by rw [sphereScene_hit_eq_selectHit]; exact heq, fun s hs => ?_⟩
    cases hv : Sphere.hit s r t_min t_max with
    | Miss => rfl
    | Hit t2 p2 n2 m2 =>
      exfalso
      have hmem : Intersection.Hit t2 p2 n2 m2 ∈ l.map fun s => Sphere.hit s r t_min t_max := by
        rw [← hv]
        exact List.mem_map_of_mem _ hs
      have := hall t2 p2 n2 m2 hmem
      have := (Sphere.hit_t_bounds s r t_min t_max t2 p2 n2 m2 hv).2
      linarith
  · right
    exact ⟨t, p, n, m, pre, post, by rw [sphereScene_hit_eq_selectHit]; exact heq,
      hlt, hsplit, hpre, hpost⟩

/-- A hit record placed by a split is at least as close as every hit in the
whole list. -/
theorem min_of_split (hs pre post : List Intersection) (t : ℝ) (p n : Vector) (m : Material)
    (hsplit : hs = pre ++ Intersection.Hit t p n m :: post)
    (hpre : ∀ t2 p2 n2 m2, Intersection.Hit t2 p2 n2 m2 ∈ pre → t < t2)
    (hpost : ∀ t2 p2 n2 m2, Intersection.Hit t2 p2 n2 m2 ∈ post → t ≤ t2) :
    ∀ t2 p2 n2 m2, Intersection.Hit t2 p2 n2 m2 ∈ hs → t ≤ t2 := by
  intro t2 p2 n2 m2 hmem
  rw [hsplit] at hmem
  rcases List.mem_append.mp hmem with hl | hr
  · exact (hpre t2 p2 n2 m2 hl).le
  · rcases List.mem_cons.mp hr with hc | hm
    · rw [Intersection.Hit.injEq] at hc
      exact le_of_eq hc.1.symm
    · exact hpost t2 p2 n2 m2 hm

/-- Two members of a list that a function sends to the same defined value are
equal when the image list has no duplicates. -/
theorem nodup_filterMap_inj {α β : Type _} (f : α → Option β) :
    ∀ (l : List α) (v : β) (a b : α), (l.filterMap f).Nodup → a ∈ l → b ∈ l →
      f a = some v → f b = some v → a = b := by
  intro l
  induction l with
  | nil => intro v a b _ ha; exact absurd ha (List.not_mem_nil a)
  | cons x xs ih =>
    intro v a b hnd ha hb hfa hfb
    rcases List.mem_cons.mp ha with rfl | ha2
    · rcases List.mem_cons.mp hb with rfl | hb2
      · rfl
      · exfalso
        simp only [List.filterMap_cons, hfa] at hnd
        exact (List.nodup_cons.mp hnd).1 (List.mem_filterMap.mpr ⟨b, hb2, hfb⟩)
    · rcases List.mem_cons.mp hb with rfl | hb2
      · exfalso
        simp only [List.filterMap_cons, hfb] at hnd
        exact (List.nodup_cons.mp hnd).1 (List.mem_filterMap.mpr ⟨a, ha2, hfa⟩)
      · refine ih v a b ?_ ha2 hb2 hfa hfb
        cases hfx : f x with
        | none => simpa [List.filterMap_cons, hfx] using hnd
        | some w =>
          simp only [List.filterMap_cons, hfx] at hnd
          exact (List.nodup_cons.mp hnd).2

/-- C1: on a scene of spheres, HitableList::hit returns Miss exactly when
every member misses; a returned hit is a member's hit, has its parameter
strictly inside (t_min, t_max), is at least as close as every member hit and
strictly closer than every member hit encountered before it (the strict
comparison makes the first-encountered hit win exact ties); and when member
hit distances are pairwise distinct the result is unchanged under any
permutation of the scene. -/
theorem C1_nearest_hit_selection (l : List Sphere) (r : Ray) (t_min t_max : ℝ) :
    (HitableList.hit ⟨l.map Sphere.toHitable⟩ r t_min t_max = Intersection.Miss ↔
      ∀ s ∈ l, Sphere.hit s r t_min t_max = Intersection.Miss)
    ∧ (∀ t p n m,
        HitableList.hit ⟨l.map Sphere.toHitable⟩ r t_min t_max = Intersection.Hit t p n m →
        (t_min < t ∧ t < t_max) ∧
        (∃ s ∈ l, Sphere.hit s r t_min t_max = Intersection.Hit t p n m) ∧
        (∀ s2 ∈ l, ∀ t2 p2 n2 m2,
            Sphere.hit s2 r t_min t_max = Intersection.Hit t2 p2 n2 m2 → t ≤ t2) ∧
        ∃ pre post,
          l.map (fun s => Sphere.hit s r t_min t_max) =
            pre ++ Intersection.Hit t p n m :: post ∧
          (∀ t2 p2 n2 m2, Intersection.Hit t2 p2 n2 m2 ∈ pre → t < t2))
    ∧ (∀ l2 : List Sphere, l.Perm l2 →
        ((l.map fun s => Sphere.hit s r t_min t_max).filterMap Intersection.tOpt).Nodup →
        HitableList.hit ⟨l.map Sphere.toHitable⟩ r t_min t_max =
          HitableList.hit ⟨l2.map Sphere.toHitable⟩ r t_min t_max) := by
  refine ⟨⟨?_, ?_⟩, ?_, ?_⟩
  · intro hmiss
    rcases sphereScene_hit_char l r t_min t_max with ⟨_, hall⟩ |
      ⟨t, p, n, m, pre, post, heq, _, _, _, _⟩
    · exact hall
    · rw [hmiss] at heq
      exact absurd heq (by simp)
  · intro hall
    rw [sphereScene_hit_eq_selectHit]
    apply selectHit_all_miss
    intro x hx
    obtain ⟨s, hs, rfl⟩ := List.mem_map.mp hx
    exact hall s hs
  · intro t p n m h
    rcases sphereScene_hit_char l r t_min t_max with ⟨hmiss, _⟩ |
      ⟨t2, p2, n2, m2, pre, post, heq, hlt, hsplit, hpre, hpost⟩
    · rw [h] at hmiss
      exact absurd hmiss (by simp)
    · rw [h] at heq
      rw [Intersection.Hit.injEq] at heq
      obtain ⟨ht, hp, hn, hm⟩ := heq
      subst ht; subst hp; subst hn; subst hm
      have hmem : Intersection.Hit t p n m ∈ l.map fun s => Sphere.hit s r t_min t_max := by
        rw [hsplit]
        exact List.mem_append_right _ (List.mem_cons_self _ _)
      obtain ⟨s0, hs0, hval0⟩ := List.mem_map.mp hmem
      have hbounds := Sphere.hit_t_bounds s0 r t_min t_max t p n m hval0
      refine ⟨⟨hbounds.1, hbounds.2⟩, ⟨s0, hs0, hval0⟩, ?_, pre, post, hsplit, hpre⟩
      intro s2 hs2 t2 p2 n2 m2 hv2
      have hmem2 : Intersection.Hit t2 p2 n2 m2 ∈ l.map fun s => Sphere.hit s r t_min t_max := by
        rw [← hv2]
        exact List.mem_map_of_mem _ hs2
      exact min_of_split _ pre post t p n m hsplit hpre hpost t2 p2 n2 m2 hmem2
  · intro l2 hperm hnodup
    have hmapperm : (l.map fun s => Sphere.hit s r t_min t_max).Perm
        (l2.map fun s => Sphere.hit s r t_min t_max) := hperm.map _
    rcases sphereScene_hit_char l r t_min t_max with ⟨h1, hall1⟩ |
      ⟨t, p, n, m, pre, post, h1, hlt1, hsplit1, hpre1, hpost1⟩
    · rcases sphereScene_hit_char l2 r t_min t_max with ⟨h2, hall2⟩ |
        ⟨t2, p2, n2, m2, pre2, post2, h2, hlt2, hsplit2, hpre2, hpost2⟩
      · rw [h1, h2]
      · exfalso
        have hmem2 : Intersection.Hit t2 p2 n2 m2 ∈
            l2.map fun s => Sphere.hit s r t_min t_max := by
          rw [hsplit2]
          exact List.mem_append_right _ (List.mem_cons_self _ _)
        obtain ⟨s0, hs0, hval0⟩ := List.mem_map.mp (hmapperm.symm.subset hmem2)
        rw [hall1 s0 hs0] at hval0
        exact absurd hval0 (by simp)
    · rcases sphereScene_hit_char l2 r t_min t_max with ⟨h2, hall2⟩ |
        ⟨t2, p2, n2, m2, pre2, post2, h2, hlt2, hsplit2, hpre2, hpost2⟩
      · exfalso
        have hmem1 : Intersection.Hit t p n m ∈
            l.map fun s => Sphere.hit s r t_min t_max := by
          rw [hsplit1]
          exact List.mem_append_right _ (List.mem_cons_self _ _)
        obtain ⟨s0, hs0, hval0⟩ := List.mem_map.mp (hmapperm.subset hmem1)
        rw [hall2 s0 hs0] at hval0
        exact absurd hval0 (by simp)
      · have hmem1 : Intersection.Hit t p n m ∈
            l.map fun s => Sphere.hit s r t_min t_max := by
          rw [hsplit1]
          exact List.mem_append_right _ (List.mem_cons_self _ _)
        have hmem2 : Intersection.Hit t2 p2 n2 m2 ∈
            l2.map fun s => Sphere.hit s r t_min t_max := by
          rw [hsplit2]
          exact List.mem_append_right _ (List.mem_cons_self _ _)
        have hmem2in1 := hmapperm.symm.subset hmem2
        have hmem1in2 := hmapperm.subset hmem1
        have hle1 : t ≤ t2 :=
          min_of_split _ pre post t p n m hsplit1 hpre1 hpost1 t2 p2 n2 m2 hmem2in1
        have hle2 : t2 ≤ t :=
          min_of_split _ pre2 post2 t2 p2 n2 m2 hsplit2 hpre2 hpost2 t p n m hmem1in2
        have ht : t = t2 := le_antisymm hle1 hle2
        subst ht
        have heq : Intersection.Hit t p n m = Intersection.Hit t p2 n2 m2 :=
          nodup_filterMap_inj Intersection.tOpt
            (l.map fun s => Sphere.hit s r t_min t_max) t _ _
            hnodup hmem1 hmem2in1 rfl rfl
        rw [h1, h2]
        exact heq

/-- C5: every hit record returned by Sphere::hit, and hence by
HitableList::hit on a scene of spheres, has its position on the ray at
parameter t, a unit-length normal, and its parameter strictly inside the
query interval. -/
theorem C5_hit_record_invariant :
    (∀ (s : Sphere) (r : Ray) (t_min t_max t : ℝ) (p n : Vector) (m : Material),
        s.hit r t_min t_max = Intersection.Hit t p n m →
        p = r.origin + t • r.direction ∧ n.length = 1 ∧ t_min < t ∧ t < t_max)
    ∧ (∀ (l : List Sphere) (r : Ray) (t_min t_max t : ℝ) (p n : Vector) (m : Material),
        HitableList.hit ⟨l.map Sphere.toHitable⟩ r t_min t_max = Intersection.Hit t p n m →
        p = r.origin + t • r.direction ∧ n.length = 1 ∧ t_min < t ∧ t < t_max) := by
  constructor
  · exact fun s r t_min t_max t p n m h => Sphere.hit_inv s r t_min t_max t p n m h
  · intro l r t_min t_max t p n m h
    rcases sphereScene_hit_char l r t_min t_max with ⟨hmiss, _⟩ |
      ⟨t2, p2, n2, m2, pre, post, heq, _, hsplit, _, _⟩
    · rw [h] at hmiss
      exact absurd hmiss (by simp)
    · rw [h] at heq
      rw [Intersection.Hit.injEq] at heq
      obtain ⟨ht, hp, hn, hm⟩ := heq
      subst ht; subst hp; subst hn; subst hm
      have hmem : Intersection.Hit t p n m ∈ l.map fun s => Sphere.hit s r t_min t_max := by
        rw [hsplit]
        exact List.mem_append_right _ (List.mem_cons_self _ _)
      obtain ⟨s0, _, hval0⟩ := List.mem_map.mp hmem
      exact Sphere.hit_inv s0 r t_min t_max t p n m hval0

/-- Shrinking the upper bound keeps a sphere hit that lies below the new
bound. -/
theorem Sphere.hit_mono_hit (s : Sphere) (r : Ray) (t_min t_max closest t : ℝ)
    (p n : Vector) (m : Material) (h : s.hit r t_min t_max = Intersection.Hit t p n m)
    (hlt : t < closest) (hle : closest ≤ t_max) :
    s.hit r t_min closest = Intersection.Hit t p n m := by
  rw [Sphere.hit_eq] at h ⊢
  split_ifs at h with hD h1 h2
  · rw [Sphere.hitRecord, Intersection.Hit.injEq] at h
    obtain ⟨ht, hp, hn, hm⟩ := h
    subst ht
    rw [if_pos hD, if_pos ⟨hlt, h1.2⟩, Sphere.hitRecord, hn, hp, hm]
  · rw [Sphere.hitRecord, Intersection.Hit.injEq] at h
    obtain ⟨ht, hp, hn, hm⟩ := h
    subst ht
    rw [if_pos hD, if_neg fun hc => h1 ⟨lt_of_lt_of_le hc.1 hle, hc.2⟩,
      if_pos ⟨hlt, h2.2⟩, Sphere.hitRecord, hn, hp, hm]

/-- Shrinking the upper bound below a sphere hit's parameter turns the query
into a miss. -/
theorem Sphere.hit_mono_reject (s : Sphere) (r : Ray) (t_min t_max closest t : ℝ)
    (p n : Vector) (m : Material) (h : s.hit r t_min t_max = Intersection.Hit t p n m)
    (hnlt : ¬t < closest) (hle : closest ≤ t_max) :
    s.hit r t_min closest = Intersection.Miss := by
  rw [Sphere.hit_eq] at h ⊢
  split_ifs at h with hD h1 h2
  · rw [Sphere.hitRecord, Intersection.Hit.injEq] at h
    obtain ⟨ht, _, _, _⟩ := h
    subst ht
    rw [if_pos hD, if_neg fun hc => hnlt hc.1,
      if_neg fun hc => absurd hc.1
        (not_lt.mpr (le_trans (not_lt.mp hnlt) (Sphere.root1_le_root2 s r hD)))]
  · rw [Sphere.hitRecord, Intersection.Hit.injEq] at h
    obtain ⟨ht, _, _, _⟩ := h
    subst ht
    rw [if_pos hD, if_neg fun hc => h1 ⟨lt_of_lt_of_le hc.1 hle, hc.2⟩,
      if_neg fun hc => hnlt hc.1]

/-- Shrinking the upper bound preserves a sphere miss. -/
theorem Sphere.hit_mono_miss (s : Sphere) (r : Ray) (t_min t_max closest : ℝ)
    (h : s.hit r t_min t_max = Intersection.Miss) (hle : closest ≤ t_max) :
    s.hit r t_min closest = Intersection.Miss := by
  rw [Sphere.hit_eq] at h ⊢
  split_ifs at h with hD h1 h2
  · simp [Sphere.hitRecord] at h
  · simp [Sphere.hitRecord] at h
  · rw [if_pos hD, if_neg fun hc => h1 ⟨lt_of_lt_of_le hc.1 hle, hc.2⟩,
      if_neg fun hc => h2 ⟨lt_of_lt_of_le hc.1 hle, hc.2⟩]
  · rw [if_neg hD]

/-- The loop of HitableList::hit as the left fold of the amended step
description. -/
theorem hitAux_eq_foldl (r : Ray) (t_min t_max : ℝ) :
    ∀ (items : List Hitable) (acc : Intersection) (closest : ℝ),
      hitAux r t_min t_max items acc closest =
        (items.foldl
          (fun st i =>
            match i r t_min t_max with
            | Intersection.Hit t position normal material =>
              if t < st.2 then (Intersection.Hit t position normal material, t) else st
            | Intersection.Miss => st)
          (acc, closest)).1 := by
  intro items
  induction items with
  | nil => intro acc closest; rfl
  | cons i rest ih =>
    intro acc closest
    cases hv : i r t_min t_max with
    | Miss =>
      simp only [hitAux, List.foldl_cons, hv]
      exact ih acc closest
    | Hit t p n m =>
      simp only [hitAux, List.foldl_cons, hv]
      by_cases hlt : t < closest
      · rw [if_pos hlt, if_pos hlt]
        exact ih _ _
      · rw [if_neg hlt, if_neg hlt]
        exact ih _ _

/-- On sphere members, querying with the shrunken bound closest_so_far and
querying with the original t_max behind the strict guard agree, step by
step. -/
theorem specHitAux_eq_hitAux_spheres (r : Ray) (t_min t_max : ℝ) :
    ∀ (sl : List Sphere) (acc : Intersection) (closest : ℝ), closest ≤ t_max →
      specHitAux r t_min (sl.map Sphere.toHitable) acc closest =
        hitAux r t_min t_max (sl.map Sphere.toHitable) acc closest := by
  intro sl
  induction sl with
  | nil => intro acc closest _; rfl
  | cons s rest ih =>
    intro acc closest hle
    cases hv : s.hit r t_min t_max with
    | Miss =>
      have hv2 : s.hit r t_min closest = Intersection.Miss :=
        Sphere.hit_mono_miss s r t_min t_max closest hv hle
      simp only [List.map_cons, specHitAux, hitAux, Sphere.toHitable, hv, hv2]
      exact ih acc closest hle
    | Hit t p n m =>
      by_cases hlt : t < closest
      · have hv2 : s.hit r t_min closest = Intersection.Hit t p n m :=
          Sphere.hit_mono_hit s r t_min t_max closest t p n m hv hlt hle
        simp only [List.map_cons, specHitAux, hitAux, Sphere.toHitable, hv, hv2]
        rw [if_pos hlt, if_pos hlt]
        exact ih _ t (lt_of_lt_of_le hlt hle).le
      · have hv2 : s.hit r t_min closest = Intersection.Miss :=
          Sphere.hit_mono_reject s r t_min t_max closest t p n m hv hlt hle
        simp only [List.map_cons, specHitAux, hitAux, Sphere.toHitable, hv, hv2]
        rw [if_neg hlt]
        exact ih acc closest hle

/-- Concrete run of HitableList::hit on a member whose report depends on the
upper bound: the code queries with the original t_max, so the second member
still reports its t = 1 hit and wins. -/
theorem code_hit_hitA_hitB :
    HitableList.hit ⟨[hitA, hitB]⟩ ray0 0 10 =
      Intersection.Hit 1 Vector.zero Vector.zero mat0 := by
  norm_num [HitableList.hit, hitAux, hitA, hitB]

/-- Concrete run of the spec's shrinking-bound algorithm on the same scene:
the second member is queried with the shrunken bound 3 and reports a miss. -/
theorem spec_hit_hitA_hitB :
    HitableList.specHit ⟨[hitA, hitB]⟩ ray0 0 10 =
      Intersection.Hit 3 Vector.zero Vector.zero mat0 := by
  norm_num [HitableList.specHit, specHitAux, hitA, hitB]

/-- C2 counterexample: HitableList::hit does not follow the spec's
shrinking-upper-bound algorithm; on a concrete two-member scene whose second
member's report depends on the upper bound it is queried with, the code
(querying with the original t_max) and the spec's algorithm (querying with
closest_so_far) return different hits. -/
theorem C2_counterexample :
    HitableList.hit ⟨[hitA, hitB]⟩ ray0 0 10 ≠
      HitableList.specHit ⟨[hitA, hitB]⟩ ray0 0 10 := by
  rw [code_hit_hitA_hitB, spec_hit_hitA_hitB]
  intro h
  rw [Intersection.Hit.injEq] at h
  norm_num at h

/-- C2 as amended: HitableList::hit initializes closest_so_far = t_max and
the result to Miss and folds over the members in collection order, querying
each member with the original t_max — not the shrunken closest_so_far — and
updating the pair exactly when the member reports a hit with t strictly
below closest_so_far; on scenes whose members are spheres this is
extensionally equal to the spec's shrinking-upper-bound algorithm. -/
theorem C2_amended_loop_description :
    (∀ (l : HitableList) (r : Ray) (t_min t_max : ℝ),
        l.hit r t_min t_max = l.stepHit r t_min t_max)
    ∧ (∀ (sl : List Sphere) (r : Ray) (t_min t_max : ℝ),
        HitableList.hit ⟨sl.map Sphere.toHitable⟩ r t_min t_max =
          HitableList.specHit ⟨sl.map Sphere.toHitable⟩ r t_min t_max) := by
  constructor
  · intro l r t_min t_max
    exact hitAux_eq_foldl r t_min t_max l.items Intersection.Miss t_max
  · intro sl r t_min t_max
    exact (specHitAux_eq_hitAux_spheres r t_min t_max sl Intersection.Miss t_max le_rfl).symm

end Tracer
